import Mathlib

/-!
# Verification of the goiardi cookbook versioning / dependency-resolution core

Shallow embedding of src/cookbook/cookbook.go (in-memory data-store branch;
the `config.Config.UseMySQL` branches and the external `data_store`,
`filestore`, `util` and logging collaborators are outside the embedded core).

Go `map` values are embedded as association lists; Go's randomized map
iteration order is fixed to list (insertion) order.  Go panics are embedded
as the distinguished error `RErr.goPanic`; recursion depth for the
dependency walk is made explicit with a fuel parameter, running out of fuel
is the distinguished error `RErr.noFuel`.
-/

namespace Goiardi

/-- Errors produced by the embedded operations.  `msg` embeds the
`fmt.Errorf` / `util.Errorf` error returns, `goPanic` embeds a Go runtime
panic (e.g. an out-of-range slice index), `noFuel` marks exhaustion of the
explicit recursion fuel of the dependency walk. -/
inductive RErr where
  | msg : String → RErr
  | goPanic : RErr
  | noFuel : RErr
deriving DecidableEq, Repr

instance {ε α : Type} [DecidableEq ε] [DecidableEq α] : DecidableEq (Except ε α) := fun x y =>
  match x, y with
  | .error e, .error f =>
    if h : e = f then .isTrue (by rw [h]) else .isFalse (by intro hc; cases hc; exact h rfl)
  | .ok a, .ok b =>
    if h : a = b then .isTrue (by rw [h]) else .isFalse (by intro hc; cases hc; exact h rfl)
  | .error _, .ok _ => .isFalse (by intro hc; cases hc)
  | .ok _, .error _ => .isFalse (by intro hc; cases hc)

/-! ## String helpers (embedding `strings.Split` and `strconv.Atoi`) -/

/-- Is `p` a prefix of `l`? (used to locate separator occurrences). -/
def isPreOf : List Char → List Char → Bool
  | [], _ => true
  | _ :: _, [] => false
  | a :: as, b :: bs => a == b && isPreOf as bs

/-- Worker for `stringsSplit`: `acc` is the current chunk, reversed.  The
`fuel` argument makes the recursion structural (each step consumes at
least one character, so any fuel above the input length is enough and the
out-of-fuel case is unreachable from `stringsSplit`). -/
def splitGo (sep : List Char) : Nat → List Char → List Char → List (List Char)
  | 0, acc, _ => [acc.reverse]
  | _ + 1, acc, [] => [acc.reverse]
  | fuel + 1, acc, c :: cs =>
    if isPreOf sep (c :: cs) then
      acc.reverse :: splitGo sep fuel [] (List.drop (sep.length - 1) cs)
    else
      splitGo sep fuel (c :: acc) cs

/-- Embeds Go `strings.Split(s, sep)` for a nonempty separator: splits `s`
around every occurrence of `sep`.  `strings.Split("", sep) = [""]`. -/
def stringsSplit (s sep : String) : List String :=
  (splitGo sep.data (s.data.length + 1) [] s.data).map String.mk

/-- Numeric value of a list of decimal digits; `none` if empty or any
character is not a digit. -/
def parseDigits : List Char → Option Nat
  | [] => none
  | cs =>
    cs.foldl
      (fun acc c => acc.bind (fun n => if c.isDigit then some (n * 10 + (c.toNat - 48)) else none))
      (some 0)

/-- Embeds Go `strconv.Atoi` as used by the cookbook code: the error return
is always discarded there, and Go's Atoi yields 0 together with the error
on malformed input, so malformed input is embedded as 0. -/
def atoi (s : String) : Int :=
  match s.data with
  | '+' :: cs => match parseDigits cs with | some n => (n : Int) | none => 0
  | '-' :: cs => match parseDigits cs with | some n => -(n : Int) | none => 0
  | cs => match parseDigits cs with | some n => (n : Int) | none => 0

/-! ## Version comparison (`versionLess`, cookbook.go:1049-1084) -/

/-- The `for q := 0; q < 3; q++` loop body of `versionLess`: walks up to
`q` components; a missing component on the left yields `true`, on the right
`false`; the first numerically different pair decides. -/
def vlLoop : Nat → List String → List String → Bool
  | 0, _, _ => false
  | Nat.succ q, iv, jv =>
    match iv, jv with
    | [], _ => true
    | _ :: _, [] => false
    | ic :: it, jc :: jt =>
      if atoi ic != atoi jc then decide (atoi ic < atoi jc)
      else vlLoop q it jt

/-- Embeds `versionLess` (cookbook.go:1049): equal strings compare not-less;
otherwise the dot-separated components are compared numerically for up to
three positions, a missing component counting as smaller. -/
def versionLess (verA verB : String) : Bool :=
  if verA == verB then false
  else vlLoop 3 (stringsSplit verA ".") (stringsSplit verB ".")

/-! ## Constraint evaluation (`verConstraintCheck`, cookbook.go:1090-1156) -/

/-- Embeds `verConstraintCheck`: compares candidate `verA` against bound
`verB` under operator `op`, returning the outcome strings "ok", "break",
"skip" or "invalid" exactly as the source does. -/
def verConstraintCheck (verA verB op : String) : String :=
  if op == "=" then
    if verA == verB then "ok"
    else if versionLess verA verB then "break"
    else "skip"
  else if op == ">" then
    if verA == verB || versionLess verA verB then "break" else "ok"
  else if op == "<" then
    if verA == verB || !versionLess verA verB then "skip" else "ok"
  else if op == ">=" then
    if !versionLess verA verB then "ok" else "break"
  else if op == "<=" then
    if verA == verB || versionLess verA verB then "ok" else "skip"
  else if op == "~>" then
    if versionLess verA verB then "break"
    else
      let pv := stringsSplit verB "."
      let upperBound :=
        if pv.length == 3 then
          (pv.headD "") ++ "." ++ toString (atoi (pv.getD 1 "") + 1)
        else
          toString (atoi (pv.headD "") + 1) ++ ".0"
      if !versionLess verA verB && versionLess verA upperBound then "ok" else "skip"
  else "invalid"

/-- Embeds `splitConstraint` (cookbook.go:458): a constraint must be exactly
two space-separated tokens `OP VERSION`. -/
def splitConstraint (constraint : String) : Except RErr (String × String) :=
  match stringsSplit constraint " " with
  | [op, ver] => .ok (op, ver)
  | _ => .error (.msg ("Constraint " ++ constraint ++ " was not well-formed."))

/-! ## Data model

`CookbookVersion` keeps the fields read by the resolution and versioning
core: its identity, version string, frozen flag, and the
`Metadata["dependencies"]` map (embedded as an association list of
dependency-name / constraint-string pairs).  The JSON content divisions
(recipes, attributes, ...) and file-hash bookkeeping are handled by
external collaborators (`util`, `filestore`) and are not part of the
embedded state. -/

structure CookbookVersion where
  cookbookName : String
  name : String
  version : String
  isFrozen : Bool
  dependencies : List (String × String)
deriving DecidableEq, Repr

/-- The `Cookbook` struct: its name, the `Versions` map (association list
from version string to `CookbookVersion`) and the cached `latest` pointer.
The `numVersions` cache is MySQL-only and omitted. -/
structure Cookbook where
  name : String
  versions : List (String × CookbookVersion)
  latest : Option CookbookVersion
deriving DecidableEq, Repr

/-- The in-memory data store of cookbooks (`data_store` "cookbook" bucket). -/
abbrev Store := List Cookbook

/-- The resolution constraint table `cd_list : map[string][]string`. -/
abbrev CdList := List (String × List String)

/-! ## Association-list operations standing in for Go maps -/

/-- Lookup in the `Versions` map. -/
def lookupVer : List (String × CookbookVersion) → String → Option CookbookVersion
  | [], _ => none
  | (k, v) :: rest, key => if k == key then some v else lookupVer rest key

/-- Insert/replace in the `Versions` map. -/
def putVer : List (String × CookbookVersion) → String → CookbookVersion → List (String × CookbookVersion)
  | [], key, v => [(key, v)]
  | (k, w) :: rest, key, v =>
    if k == key then (key, v) :: rest else (k, w) :: putVer rest key v

/-- `delete(c.Versions, key)`. -/
def delVer : List (String × CookbookVersion) → String → List (String × CookbookVersion)
  | [], _ => []
  | (k, w) :: rest, key => if k == key then rest else (k, w) :: delVer rest key

/-- Lookup in the constraint table. -/
def lookupCd : CdList → String → Option (List String)
  | [], _ => none
  | (k, v) :: rest, key => if k == key then some v else lookupCd rest key

/-- Insert/replace in the constraint table. -/
def setCd : CdList → String → List String → CdList
  | [], key, v => [(key, v)]
  | (k, w) :: rest, key, v =>
    if k == key then (key, v) :: rest else (k, w) :: setCd rest key v

/-- `Get(name)` on the in-memory store: the first cookbook with that name. -/
def getCB : Store → String → Option Cookbook
  | [], _ => none
  | cb :: rest, name => if cb.name == name then some cb else getCB rest name

/-- Writing a mutated cookbook back through its pointer: replace the first
cookbook with that name. -/
def putCB : Store → String → Cookbook → Store
  | [], _, _ => []
  | cb :: rest, name, c => if cb.name == name then c :: rest else cb :: putCB rest name c

/-! ## Sorted versions and the latest-version cache -/

/-- Insert into a descending-sorted list: `k` is placed before the first
element `x` with `versionLess x k`. -/
def insertDesc (k : String) : List String → List String
  | [] => [k]
  | x :: xs => if versionLess x k then k :: x :: xs else x :: insertDesc k xs

/-- Descending sort of version strings, embedding
`sort.Sort(sort.Reverse(keys))` with `VersionStrings.Less = versionLess`
(cookbook.go:1037-1047).  Go's sort is unstable and its key iteration order
is randomized; on keys that `versionLess` orders totally - the case
throughout - the descending arrangement is unique and this insertion sort
produces it. -/
def sortDesc : List String → List String
  | [] => []
  | x :: xs => insertDesc x (sortDesc xs)

/-- Embeds `sortedVersions` (cookbook.go:220): version-map keys sorted
descending, then mapped back through the map. -/
def sortedVersions (c : Cookbook) : List CookbookVersion :=
  (sortDesc (c.versions.map Prod.fst)).filterMap (fun k => lookupVer c.versions k)

/-- Embeds `LatestVersion` (cookbook.go:252): returns the cached pointer if
set; otherwise computes `sortedVersions` and caches `sorted[0]` - which is
an out-of-range panic when the cookbook has no versions.  Returns the
answer together with the (possibly mutated) cookbook. -/
def latestVersion (c : Cookbook) : Except RErr (CookbookVersion × Cookbook) :=
  match c.latest with
  | some l => .ok (l, c)
  | none =>
    match sortedVersions c with
    | [] => .error .goPanic
    | v :: _ => .ok (v, { c with latest := some v })

/-- Embeds `UpdateLatestVersion` (cookbook.go:246): clears the cache and
recomputes it via `LatestVersion` (whose panic on an empty version set
propagates). -/
def updateLatestVersion (c : Cookbook) : Except RErr Cookbook :=
  match latestVersion { c with latest := none } with
  | .error e => .error e
  | .ok (_, c1) => .ok c1

/-- The constraint scan of `LatestConstrained` (cookbook.go:554-560): walk
the descending-sorted versions and return the first one whose
`verConstraintCheck` outcome is "ok"; every other outcome moves on. -/
def findOk (ver op : String) : List CookbookVersion → Option CookbookVersion
  | [] => none
  | cv :: rest =>
    if verConstraintCheck cv.version ver op == "ok" then some cv
    else findOk ver op rest

/-- Embeds `LatestConstrained` (cookbook.go:540): empty constraint defers
to `LatestVersion` (cache fill / panic included); a malformed constraint
logs a warning and returns nil; otherwise the newest "ok" version.
Returns the answer with the possibly mutated cookbook. -/
def latestConstrained (c : Cookbook) (constraint : String) : Except RErr (Option CookbookVersion × Cookbook) :=
  if constraint == "" then
    match latestVersion c with
    | .error e => .error e
    | .ok (v, c1) => .ok (some v, c1)
  else
    match stringsSplit constraint " " with
    | [op, ver] => .ok (findOk ver op (sortedVersions c), c)
    | _ => .ok (none, c)

/-- Embeds `GetVersion` (cookbook.go:601, in-memory branch): "_latest"
defers to `LatestVersion`, otherwise a map lookup.  Returns the found
version together with the (possibly mutated, via the "_latest" path)
cookbook. -/
def getVersion (c : Cookbook) (cbVersion : String) : Except RErr (CookbookVersion × Cookbook) :=
  if cbVersion == "_latest" then latestVersion c
  else
    match lookupVer c.versions cbVersion with
    | some cbv => .ok (cbv, c)
    | none => .error (.msg ("Cannot find a cookbook named " ++ c.name ++ " with version " ++ cbVersion))

/-! ## Updating, creating and deleting cookbook versions -/

/-- Modelled from the spec: the validation gauntlet of `UpdateVersion`
(cookbook.go:743-859) calls `util.ValidateAsString`,
`util.ValidateAsFieldString`, `util.ValidateAsVersion`,
`util.ValidateCookbookDivision`, `util.ValidateCookbookMetadata` and
`util.ValidateAsBool`, whose code lives in the repository's `util` package
outside src/.  Per the spec, an update "re-validates and replaces all
metadata atomically"; `UpdateData` carries the outcome: whether the payload
passed validation, and the validated frozen flag and dependency metadata
that would replace the version's fields. -/
structure UpdateData where
  valid : Bool
  frozen : Bool
  dependencies : List (String × String)
deriving DecidableEq, Repr

/-- Embeds `UpdateVersion` (cookbook.go:735): a frozen version rejects the
update unless `force == "true"`; an invalid payload is rejected; otherwise
all metadata is replaced - but the frozen flag is only assigned from the
payload when the version is not already frozen (cookbook.go:856-858). -/
def updateVersion (cbv : CookbookVersion) (cbvData : UpdateData) (force : String) : Except RErr CookbookVersion :=
  if cbv.isFrozen && !(force == "true") then
    .error (.msg ("The cookbook " ++ cbv.cookbookName ++ " at version " ++ cbv.version ++ " is frozen."))
  else if !cbvData.valid then
    .error (.msg "validation failed")
  else
    .ok { cbv with
          dependencies := cbvData.dependencies,
          isFrozen := if !cbv.isFrozen then cbvData.frozen else cbv.isFrozen }

/-- Embeds `NewVersion` (cookbook.go:570): conflict if the version already
exists (a panic inside that existence check - `GetVersion("_latest")` on a
cookbook with an empty cache and no versions - propagates); otherwise a
fresh unfrozen `CookbookVersion` is populated via `UpdateVersion` with
empty force, added to the version map, and the latest cache is recomputed
via `UpdateLatestVersion`. -/
def newVersion (c : Cookbook) (cbVersion : String) (cbvData : UpdateData) : Except RErr (CookbookVersion × Cookbook) :=
  match getVersion c cbVersion with
  | .ok _ => .error (.msg ("Version " ++ cbVersion ++ " of cookbook " ++ c.name ++ " already exists"))
  | .error .goPanic => .error .goPanic
  | .error _ =>
    match updateVersion
        { cookbookName := c.name
          name := c.name ++ "-" ++ cbVersion
          version := cbVersion
          isFrozen := false
          dependencies := [] } cbvData "" with
    | .error e => .error e
    | .ok cbv =>
      match updateLatestVersion { c with versions := putVer c.versions cbVersion cbv } with
      | .error e => .error e
      | .ok c2 => .ok (cbv, c2)

/-- Embeds `DeleteVersion` (cookbook.go:708): 404 if the version does not
exist; otherwise the version is removed from the map (the file-hash
garbage collection against `filestore` is external).  Note the source
clears only the MySQL `numVersions` cache here: the `latest` pointer is
left untouched. -/
def deleteVersion (c : Cookbook) (cbVersion : String) : Except RErr Cookbook :=
  match getVersion c cbVersion with
  | .error .goPanic => .error .goPanic
  | .error _ =>
    .error (.msg ("Version " ++ cbVersion ++ " of cookbook " ++ c.name ++ " does not exist to be deleted."))
  | .ok (_, c0) => .ok { c0 with versions := delVer c0.versions cbVersion }

/-! ## Dependency resolution (`DependsCookbooks`, cookbook.go:275-456) -/

/-- Parses one run-list entry (cookbook.go:279-293): the name is everything
before the first "::" of the part before "@"; a single "@version" suffix
becomes the constraint "= version", anything else no constraint. -/
def parseRunListEntry (cbV : String) : String × String :=
  let cx := stringsSplit cbV "@"
  let cbName := (stringsSplit (cx.headD "") "::").headD ""
  let constraint := if cx.length == 2 then "= " ++ cx.getD 1 "" else ""
  (cbName, constraint)

/-- Worker for `initCdList`: folds the run-list entries into the table in
order, so a duplicate name's later entry replaces the earlier one, as in
the Go loop; `run_list_ref` keeps every entry's name, duplicates
included. -/
def initCdListAux (acc : CdList) : List String → CdList × List String
  | [] => (acc, [])
  | cbV :: rest =>
    let (cbName, constraint) := parseRunListEntry cbV
    let (cd, refs) := initCdListAux (setCd acc cbName [constraint]) rest
    (cd, cbName :: refs)

/-- Builds the initial constraint table and the `run_list_ref` name list
(cookbook.go:276-293): each entry's name maps to the single-element list
holding its constraint. -/
def initCdList (runList : List String) : CdList × List String :=
  initCdListAux [] runList

/-- `_, orgver, _ := splitConstraint(...)`: the version part of a
constraint with the error discarded - malformed input yields "". -/
def splitConstraintVer (constraint : String) : String :=
  match splitConstraint constraint with
  | .ok (_, ver) => ver
  | .error _ => ""

/-- Embeds the body of the environment-constraint merge loop
(cookbook.go:298-341) for one package `k` whose current table entry is
`cur` and whose environment constraint is `ec`:
empty request takes the environment; equal version parts take the
environment; otherwise the environment's operator decides whether the
environment overrides, the request is kept, or the two conflict. -/
def envConflictMsg (cur0 k ec : String) : String :=
  "This run list has a constraint " ++ cur0 ++ " for " ++ k ++ " that conflicts with " ++ ec ++ " in the environment."

def envMergeStep (cur : List String) (k ec : String) : Except RErr (List String) :=
  if cur.headD "" == "" then .ok [ec]
  else
    let orgver := splitConstraintVer (cur.headD "")
    match splitConstraint ec with
    | .error e => .error e
    | .ok (newop, newver) =>
      if orgver == newver then .ok [ec]
      else if newop == ">" || newop == ">=" then
        if versionLess orgver newver then .ok [ec] else .ok cur
      else if newop == "<" || newop == "<=" then
        if !versionLess orgver newver then .ok [ec] else .ok cur
      else if newop == "=" then
        if orgver != newver then .error (.msg (envConflictMsg (cur.headD "") k ec))
        else .ok cur
      else if newop == "~>" then
        if verConstraintCheck orgver newver newop == "ok" then .ok [ec]
        else .error (.msg (envConflictMsg (cur.headD "") k ec))
      else
        .error (.msg ("the constraint " ++ ec ++ " for cookbook " ++ k ++ " in this environment is impossible."))

/-- The environment-constraint loop (cookbook.go:295-342): each
environment entry for a package already in the table is merged by
`envMergeStep`; packages absent from the table are skipped. -/
def applyEnvConstraints : List (String × String) → CdList → Except RErr CdList
  | [], cd => .ok cd
  | (k, ec) :: rest, cd =>
    match lookupCd cd k with
    | none => applyEnvConstraints rest cd
    | some cur =>
      match envMergeStep cur k ec with
      | .error e => .error e
      | .ok newCur => applyEnvConstraints rest (setCd cd k newCur)

/-- The `dcon` loop of `resolveDependencies` (cookbook.go:431-444): every
non-empty accumulated constraint must judge the chosen dependency version
"ok"; a malformed constraint or a non-ok outcome is fatal. -/
def checkConstraints (version : String) : List String → Except RErr Unit
  | [] => .ok ()
  | dcon :: rest =>
    if dcon == "" then checkConstraints version rest
    else
      match splitConstraint dcon with
      | .error e => .error e
      | .ok (op, ver) =>
        if verConstraintCheck version ver op != "ok" then
          .error (.msg ("constraint conflicts with the previous constraint of " ++ dcon))
        else checkConstraints version rest

/-- The found/not-found branch of `resolveDependencies`
(cookbook.go:431-448): an existing table entry is checked against the
chosen dependency version (and left unchanged); a new package is seeded
with the single dependency constraint. -/
def resolveDepCheck (cd : CdList) (r : String) (debCbv : CookbookVersion) (c : String) : Except RErr CdList :=
  match lookupCd cd r with
  | some constraints =>
    match checkConstraints debCbv.version constraints with
    | .error e => .error e
    | .ok _ => .ok cd
  | none => .ok (cd ++ [(r, [c])])

/-- Embeds the loop body of `resolveDependencies` (cookbook.go:415-456)
over the dependency list `dep_list = cbv.Metadata["dependencies"]` of the
current version: each dependency is fetched, its newest constrained
version chosen (`LatestConstrained`, whose latest-cache mutation is
written back to the store), checked or seeded in the table, and recursed
into unconditionally through `child` (the recursion at one less fuel).
A store is returned alongside errors because Go's mutations persist up to
the point of failure. -/
def resolveDepsStep (child : List (String × String) → CdList → Store → Except RErr CdList × Store) (depList : List (String × String)) (cdList : CdList) (store : Store) : Except RErr CdList × Store :=
  match depList with
  | [] => (.ok cdList, store)
  | (r, c) :: rest =>
    match getCB store r with
    | none => (.error (.msg ("Cannot find a cookbook named " ++ r)), store)
    | some depCb =>
      match latestConstrained depCb c with
      | .error e => (.error e, store)
      | .ok (none, depCb1) =>
        (.error (.msg ("No cookbook version for " ++ r ++ " satisfies constraint " ++ c ++ ".")),
         putCB store r depCb1)
      | .ok (some debCbv, depCb1) =>
        match resolveDepCheck cdList r debCbv c with
        | .error e => (.error e, putCB store r depCb1)
        | .ok cd1 =>
          match child debCbv.dependencies cd1 (putCB store r depCb1) with
          | (.error e, s2) => (.error e, s2)
          | (.ok cd2, s2) => resolveDepsStep child rest cd2 s2

/-- `resolveDependencies` proper: recursion depth is bounded by `fuel`;
entering the dependency list of a chosen version when the fuel is spent
yields `noFuel` (the Go original recurses unboundedly and so diverges on a
cyclic dependency graph). -/
def resolveDependencies : Nat → List (String × String) → CdList → Store → Except RErr CdList × Store
  | 0 => resolveDepsStep (fun _ _ s => (.error .noFuel, s))
  | Nat.succ f => resolveDepsStep (resolveDependencies f)

/-- The run-list walk of `DependsCookbooks` (cookbook.go:345-359): for
each requested cookbook, pick the newest version satisfying its table
entry (`LatestConstrained`, cache mutation written back) and resolve its
dependencies. -/
def buildCookbookList (fuel : Nat) (refs : List String) (cdList : CdList) (store : Store) : Except RErr CdList × Store :=
  match refs with
  | [] => (.ok cdList, store)
  | cbName :: rest =>
    match getCB store cbName with
    | none => (.error (.msg ("Cannot find a cookbook named " ++ cbName)), store)
    | some c =>
      match latestConstrained c (((lookupCd cdList cbName).getD []).headD "") with
      | .error e => (.error e, store)
      | .ok (none, c1) =>
        (.error (.msg ("No cookbook found for " ++ c.name ++ " that satisfies constraint " ++
          ((lookupCd cdList cbName).getD []).headD "")), putCB store cbName c1)
      | .ok (some cbv, c1) =>
        match resolveDependencies fuel cbv.dependencies cdList (putCB store cbName c1) with
        | (.error e, s2) => (.error e, s2)
        | (.ok cd2, s2) => buildCookbookList fuel rest cd2 s2

/-- The `Vers:` constraint loop of the final pass (cookbook.go:372-384).
In the source a failing check executes `continue Vers`, but `Vers` labels
this inner constraint loop itself, so the check merely advances to the
next constraint - only a malformed constraint (via `splitConstraint`) has
any effect, aborting the resolution. -/
def finalCheckTraints (cv : CookbookVersion) : List String → Except RErr Unit
  | [] => .ok ()
  | ct :: rest =>
    if ct == "" then finalCheckTraints cv rest
    else
      match splitConstraint ct with
      | .error e => .error e
      | .ok (op, ver) =>
        let _action := verConstraintCheck cv.version ver op
        finalCheckTraints cv rest

/-- The version loop of the final pass (cookbook.go:371-389): because the
constraint loop never skips a version (see `finalCheckTraints`), the first
element of the descending-sorted sequence is always assigned to `gcbv`
and the loop breaks; `gcbv` stays nil only when there are no versions at
all. -/
def finalChoose (cb : Cookbook) (traints : List String) : Except RErr (Option CookbookVersion) :=
  match sortedVersions cb with
  | [] => .ok none
  | cv :: _ =>
    match finalCheckTraints cv traints with
    | .error e => .error e
    | .ok _ => .ok (some cv)

/-- The final selection pass of `DependsCookbooks` (cookbook.go:361-412):
for every package in the constraint table, choose `gcbv` by
`finalChoose`; a nil `gcbv` aborts with the no-satisfying-version error.
The JSON rendering (`ToJson` plus the empty-division fix-up) is projected
out: the result maps each chosen version's cookbook name to the version
itself. -/
def finalPass (store : Store) : CdList → Except RErr (List (String × CookbookVersion))
  | [] => .ok []
  | (cname, traints) :: rest =>
    match getCB store cname with
    | none => .error (.msg ("Cannot find a cookbook named " ++ cname))
    | some cb =>
      match finalChoose cb traints with
      | .error e => .error e
      | .ok none =>
        .error (.msg ("Unfortunately no version of " ++ cname ++ " could satisfy the requested constraints: " ++ String.intercalate ", " traints))
      | .ok (some gcbv) =>
        match finalPass store rest with
        | .error e => .error e
        | .ok deps => .ok ((gcbv.cookbookName, gcbv) :: deps)

/-- Embeds `DependsCookbooks` (cookbook.go:275-413): parse the run list
into the constraint table, fold in the environment constraints, walk the
run list resolving transitive dependencies (mutating the store's latest
caches), then run the final selection pass.  Returns the result together
with the evolved store. -/
def dependsCookbooks (fuel : Nat) (runList : List String) (envConstraints : List (String × String)) (store : Store) : Except RErr (List (String × CookbookVersion)) × Store :=
  let (cd0, refs) := initCdList runList
  match applyEnvConstraints envConstraints cd0 with
  | .error e => (.error e, store)
  | .ok cd1 =>
    match buildCookbookList fuel refs cd1 store with
    | (.error e, s1) => (.error e, s1)
    | (.ok cd2, s1) =>
      match finalPass s1 cd2 with
      | .error e => (.error e, s1)
      | .ok deps => (.ok deps, s1)

/-! ## Concrete fixtures used by witnesses and counterexamples -/

/-- A plain cookbook version with no dependencies. -/
def mkCbv (cb v : String) : CookbookVersion :=
  { cookbookName := cb, name := cb ++ "-" ++ v, version := v, isFrozen := false, dependencies := [] }

def v100C2 : CookbookVersion := mkCbv "foo" "1.0.0"

def v120C2 : CookbookVersion := mkCbv "foo" "1.2.0"

def v200C2 : CookbookVersion := mkCbv "foo" "2.0.0"

/-- The spec's example package foo with versions 1.0.0, 1.2.0, 2.0.0. -/
def fooC2 : Cookbook :=
  { name := "foo"
    versions := [("1.0.0", v100C2), ("1.2.0", v120C2), ("2.0.0", v200C2)]
    latest := none }

def v100C1 : CookbookVersion := mkCbv "pinned" "1.0.0"

def v200C1 : CookbookVersion := mkCbv "pinned" "2.0.0"

/-- A cookbook with versions 1.0.0 and 2.0.0 used to exercise the final
selection pass against the pin constraint "= 1.0.0". -/
def fooC1 : Cookbook :=
  { name := "pinned"
    versions := [("1.0.0", v100C1), ("2.0.0", v200C1)]
    latest := none }

def v100C6 : CookbookVersion := mkCbv "gcb" "1.0.0"

def v200C6 : CookbookVersion := mkCbv "gcb" "2.0.0"

def cbC6start : Cookbook := { name := "gcb", versions := [], latest := none }

def dC6 : UpdateData := { valid := true, frozen := false, dependencies := [] }

/-- State after uploading version 1.0.0 to `cbC6start`. -/
def cbC6one : Cookbook :=
  { name := "gcb", versions := [("1.0.0", v100C6)], latest := some v100C6 }

/-- State after additionally uploading version 2.0.0. -/
def cbC6two : Cookbook :=
  { name := "gcb", versions := [("1.0.0", v100C6), ("2.0.0", v200C6)], latest := some v200C6 }

/-- State after deleting version 2.0.0: the version map shrank but the
latest cache still holds the deleted version. -/
def cbC6del : Cookbook :=
  { name := "gcb", versions := [("1.0.0", v100C6)], latest := some v200C6 }

/-- A cookbook with no versions at all. -/
def emptyC7 : Cookbook := { name := "mtcb", versions := [], latest := none }

def cbvC9 : CookbookVersion :=
  { cookbookName := "fz", name := "fz-1.0.0", version := "1.0.0", isFrozen := true, dependencies := [] }

def dC9 : UpdateData := { valid := true, frozen := false, dependencies := [] }

/-! ## Store evolution: the latest-cache fill relation

During resolution the only shared state the code writes is the
`latest` cache of a cookbook, filled by `LatestVersion` with the head of
the descending-sorted version sequence when the cache is empty.  `CbSync`
captures exactly that: the cookbook is unchanged, or its empty cache got
filled with the sorted head. -/

/-- The metadata of a cookbook: everything except the latest-cache. -/
def cbMeta (c : Cookbook) : String × List (String × CookbookVersion) :=
  (c.name, c.versions)

/-- The metadata of a whole store. -/
def storeMeta (s : Store) : List (String × List (String × CookbookVersion)) :=
  s.map cbMeta

/-- Cache-fill evolution of one cookbook. -/
inductive CbSync : Cookbook → Cookbook → Prop
  | same (c : Cookbook) : CbSync c c
  | fill (c : Cookbook) (v : CookbookVersion) (h1 : c.latest = none)
      (h2 : (sortedVersions c).head? = some v) : CbSync c { c with latest := some v }

/-- Pointwise cache-fill evolution of a store. -/
def StoreSync (s t : Store) : Prop := List.Forall₂ CbSync s t

/-! ## Rank functions: acyclicity witnesses for the dependency graph -/

/-- The dependency lists reachable from a cookbook: those of every stored
version and, if set, of the cached latest version (a stale cache can hold
a version that is no longer in the map, and resolution follows it). -/
def RankedCB (rank : String → Nat) (cb : Cookbook) : Prop :=
  (∀ p ∈ cb.versions, ∀ q ∈ p.2.dependencies, rank q.1 < rank cb.name) ∧
  (∀ q ∈ (match cb.latest with | some v => v.dependencies | none => []), rank q.1 < rank cb.name)

/-- Every dependency edge declared anywhere in the store strictly drops
the rank - the standard witness that the dependency graph is acyclic. -/
def StoreRanked (rank : String → Nat) (s : Store) : Prop := ∀ cb ∈ s, RankedCB rank cb

/-- Fixture for the termination witness: app 1.0.0 depends on lib and
util, lib 1.0.0 depends on util, util has no dependencies. -/
def utilCbv : CookbookVersion := mkCbv "util" "1.0.0"

def libCbv : CookbookVersion :=
  { cookbookName := "lib", name := "lib-1.0.0", version := "1.0.0", isFrozen := false,
    dependencies := [("util", ">= 1.0.0")] }

def appCbv : CookbookVersion :=
  { cookbookName := "app", name := "app-1.0.0", version := "1.0.0", isFrozen := false,
    dependencies := [("lib", ""), ("util", "")] }

def storeC10 : Store :=
  [ { name := "app", versions := [("1.0.0", appCbv)], latest := none },
    { name := "lib", versions := [("1.0.0", libCbv)], latest := none },
    { name := "util", versions := [("1.0.0", utilCbv)], latest := none } ]

/-- Depth rank of the termination fixture: util 0, lib 1, app 2. -/
def rankC10 (name : String) : Nat :=
  if name == "app" then 2 else if name == "lib" then 1 else 0

/-! ## Fixtures exhibiting map-iteration-order dependence

A Go map is embedded as an association list, so two lists holding the
same key/value pairs in different orders denote the same map; Go's
`range` may present the entries in either order on any invocation.  The
versions "1.2.0" and "1.02.0" are distinct map keys (both matching the
version regex) that `versionLess` ties in both directions, so the
unstable descending sort may put either first. -/

def vTieA : CookbookVersion := mkCbv "tie" "1.2.0"

def vTieB : CookbookVersion := mkCbv "tie" "1.02.0"

/-- The cookbook "tie" with versions {1.2.0, 1.02.0}, keys in one order. -/
def storeTie1 : Store :=
  [{ name := "tie", versions := [("1.2.0", vTieA), ("1.02.0", vTieB)], latest := none }]

/-- The same cookbook, same version map, keys in the other order. -/
def storeTie2 : Store :=
  [{ name := "tie", versions := [("1.02.0", vTieB), ("1.2.0", vTieA)], latest := none }]

/-! ## Helper lemmas -/

theorem cbSync_name {c c' : Cookbook} (h : CbSync c c') : c'.name = c.name := by
  cases h <;> rfl

theorem cbSync_versions {c c' : Cookbook} (h : CbSync c c') : c'.versions = c.versions := by
  cases h <;> rfl

theorem cbSync_sorted {c c' : Cookbook} (h : CbSync c c') : sortedVersions c' = sortedVersions c := by
  cases h <;> rfl

theorem cbSync_meta {c c' : Cookbook} (h : CbSync c c') : cbMeta c' = cbMeta c := by
  cases h <;> rfl

theorem cbSync_cases {a b : Cookbook} (h : CbSync a b) :
    b = a ∨ (a.latest = none ∧ ∃ v, (sortedVersions a).head? = some v ∧ b = { a with latest := some v }) := by
  cases h with
  | same => exact Or.inl rfl
  | fill v h1 h2 => exact Or.inr ⟨h1, v, h2, rfl⟩

theorem cbSync_trans {a b c : Cookbook} (h1 : CbSync a b) (h2 : CbSync b c) : CbSync a c := by
  rcases cbSync_cases h2 with rfl | ⟨hb1, v, hb2, rfl⟩
  · exact h1
  · rcases cbSync_cases h1 with rfl | ⟨ha1, w, ha2, rfl⟩
    · exact CbSync.fill _ v hb1 hb2
    · simp at hb1

theorem storeSync_refl (s : Store) : StoreSync s s := by
  induction s with
  | nil => exact List.Forall₂.nil
  | cons c rest ih => exact List.Forall₂.cons (CbSync.same c) ih

theorem storeSync_trans {s t u : Store} (h1 : StoreSync s t) (h2 : StoreSync t u) : StoreSync s u := by
  induction h1 generalizing u with
  | nil =>
    cases h2
    exact List.Forall₂.nil
  | cons hab hrest ih =>
    cases h2 with
    | cons hbc hrest2 => exact List.Forall₂.cons (cbSync_trans hab hbc) (ih hrest2)

theorem storeSync_meta {s t : Store} (h : StoreSync s t) : storeMeta t = storeMeta s := by
  induction h with
  | nil => rfl
  | cons hab _ ih => simp [storeMeta, cbSync_meta hab] at ih ⊢; exact ih

theorem getCB_sync_none {s t : Store} (h : StoreSync s t) (r : String)
    (hg : getCB s r = none) : getCB t r = none := by
  induction h with
  | nil => rfl
  | cons hab hrest ih =>
    rename_i a b as bs
    unfold getCB at hg ⊢
    rw [cbSync_name hab]
    by_cases hname : (a.name == r) = true
    · rw [if_pos hname] at hg
      cases hg
    · rw [if_neg hname] at hg
      rw [if_neg hname]
      exact ih hg

theorem getCB_sync_some {s t : Store} (h : StoreSync s t) (r : String) {cb : Cookbook}
    (hg : getCB s r = some cb) : ∃ cbt, getCB t r = some cbt ∧ CbSync cb cbt := by
  induction h with
  | nil => cases hg
  | cons hab hrest ih =>
    rename_i a b as bs
    unfold getCB at hg ⊢
    rw [cbSync_name hab]
    by_cases hname : (a.name == r) = true
    · rw [if_pos hname] at hg
      cases hg
      exact ⟨b, by rw [if_pos hname], hab⟩
    · rw [if_neg hname] at hg
      rw [if_neg hname]
      exact ih hg

theorem getCB_putCB {s : Store} {r : String} {cb : Cookbook} (hg : getCB s r = some cb)
    (x : Cookbook) (hx : x.name = cb.name) : getCB (putCB s r x) r = some x := by
  induction s with
  | nil => cases hg
  | cons a as ih =>
    unfold getCB at hg
    unfold putCB
    by_cases hname : (a.name == r) = true
    · rw [if_pos hname] at hg
      cases hg
      rw [if_pos hname]
      unfold getCB
      rw [if_pos (show (x.name == r) = true by rw [hx]; exact hname)]
    · rw [if_neg hname] at hg
      rw [if_neg hname]
      unfold getCB
      rw [if_neg hname]
      exact ih hg

theorem putCB_sync {s : Store} {r : String} {cb cb' : Cookbook} (hg : getCB s r = some cb)
    (hsync : CbSync cb cb') : StoreSync s (putCB s r cb') := by
  induction s with
  | nil => cases hg
  | cons a as ih =>
    unfold getCB at hg
    unfold putCB
    by_cases hname : (a.name == r) = true
    · rw [if_pos hname] at hg
      cases hg
      rw [if_pos hname]
      exact List.Forall₂.cons hsync (storeSync_refl as)
    · rw [if_neg hname] at hg
      rw [if_neg hname]
      exact List.Forall₂.cons (CbSync.same a) (ih hg)

theorem putCB_self {s : Store} {r : String} {cb : Cookbook} (hg : getCB s r = some cb) :
    putCB s r cb = s := by
  induction s with
  | nil => rfl
  | cons a as ih =>
    unfold getCB at hg
    unfold putCB
    by_cases hname : (a.name == r) = true
    · rw [if_pos hname] at hg
      cases hg
      rw [if_pos hname]
    · rw [if_neg hname] at hg
      rw [if_neg hname, ih hg]

theorem getCB_mem {s : Store} {r : String} {cb : Cookbook} (hg : getCB s r = some cb) :
    cb ∈ s := by
  induction s with
  | nil => cases hg
  | cons a as ih =>
    unfold getCB at hg
    by_cases hname : (a.name == r) = true
    · rw [if_pos hname] at hg
      cases hg
      exact List.mem_cons_self _ _
    · rw [if_neg hname] at hg
      exact List.mem_cons_of_mem _ (ih hg)

theorem getCB_name {s : Store} {r : String} {cb : Cookbook} (hg : getCB s r = some cb) :
    cb.name = r := by
  induction s with
  | nil => cases hg
  | cons a as ih =>
    unfold getCB at hg
    by_cases hname : (a.name == r) = true
    · rw [if_pos hname] at hg
      cases hg
      exact eq_of_beq hname
    · rw [if_neg hname] at hg
      exact ih hg

theorem latestVersion_evolution {c : Cookbook} {v : CookbookVersion} {c1 : Cookbook}
    (h : latestVersion c = .ok (v, c1)) : CbSync c c1 := by
  unfold latestVersion at h
  rcases hl : c.latest with _ | l
  · rw [hl] at h
    rcases hs : sortedVersions c with _ | ⟨w, ws⟩
    · rw [hs] at h
      cases h
    · rw [hs] at h
      cases h
      exact CbSync.fill c _ hl (by rw [hs]; rfl)
  · rw [hl] at h
    cases h
    exact CbSync.same c

theorem latestVersion_stable {c : Cookbook} {v : CookbookVersion} {c1 u : Cookbook}
    (h : latestVersion c = .ok (v, c1)) (hu : CbSync c1 u) : latestVersion u = .ok (v, u) := by
  unfold latestVersion at h ⊢
  rcases hl : c.latest with _ | l
  · rw [hl] at h
    rcases hs : sortedVersions c with _ | ⟨w, ws⟩
    · rw [hs] at h
      cases h
    · rw [hs] at h
      cases h
      rcases cbSync_cases hu with rfl | ⟨h1, x, hx, rfl⟩
      · rfl
      · simp at h1
  · rw [hl] at h
    cases h
    rcases cbSync_cases hu with rfl | ⟨h1, x, hx, rfl⟩
    · rw [hl]
    · rw [hl] at h1
      cases h1

theorem latestVersion_stable_err {c u : Cookbook} {e : RErr}
    (h : latestVersion c = .error e) (hu : CbSync c u) : latestVersion u = .error e := by
  unfold latestVersion at h ⊢
  rcases hl : c.latest with _ | l
  · rw [hl] at h
    rcases hs : sortedVersions c with _ | ⟨w, ws⟩
    · rw [hs] at h
      cases h
      rcases cbSync_cases hu with rfl | ⟨h1, x, hx, rfl⟩
      · rw [hl, hs]
      · rw [hs] at hx
        cases hx
    · rw [hs] at h
      cases h
  · rw [hl] at h
    cases h

theorem latestConstrained_evolution {c : Cookbook} {cs : String} {a : Option CookbookVersion}
    {c1 : Cookbook} (h : latestConstrained c cs = .ok (a, c1)) : CbSync c c1 := by
  unfold latestConstrained at h
  by_cases hcs : (cs == "") = true
  · rw [if_pos hcs] at h
    rcases hv : latestVersion c with e | ⟨v, c2⟩
    · rw [hv] at h
      cases h
    · rw [hv] at h
      cases h
      exact latestVersion_evolution hv
  · rw [if_neg hcs] at h
    split at h <;> (cases h; exact CbSync.same c)

theorem latestConstrained_stable {c : Cookbook} {cs : String} {a : Option CookbookVersion}
    {c1 u : Cookbook} (h : latestConstrained c cs = .ok (a, c1)) (hu : CbSync c1 u) :
    latestConstrained u cs = .ok (a, u) := by
  unfold latestConstrained at h ⊢
  by_cases hcs : (cs == "") = true
  · rw [if_pos hcs] at h ⊢
    rcases hv : latestVersion c with e | ⟨v, c2⟩
    · rw [hv] at h
      cases h
    · rw [hv] at h
      cases h
      rw [latestVersion_stable hv hu]
  · rw [if_neg hcs] at h ⊢
    split at h
    · cases h
      rw [cbSync_sorted hu]
    · cases h
      rfl

theorem latestConstrained_stable_err {c : Cookbook} {cs : String} {e : RErr} {u : Cookbook}
    (h : latestConstrained c cs = .error e) (hu : CbSync c u) :
    latestConstrained u cs = .error e := by
  unfold latestConstrained at h ⊢
  by_cases hcs : (cs == "") = true
  · rw [if_pos hcs] at h ⊢
    rcases hv : latestVersion c with e2 | ⟨v, c2⟩
    · rw [hv] at h
      cases h
      rw [latestVersion_stable_err hv hu]
    · rw [hv] at h
      cases h
  · rw [if_neg hcs] at h
    split at h <;> cases h

theorem rds_evolution
    (child : List (String × String) → CdList → Store → Except RErr CdList × Store)
    (hchild : ∀ deps cd s, StoreSync s (child deps cd s).2) :
    ∀ deps cd s, StoreSync s (resolveDepsStep child deps cd s).2 := by
  intro deps
  induction deps with
  | nil => intro cd s; exact storeSync_refl s
  | cons p rest ih =>
    obtain ⟨r, c⟩ := p
    intro cd s
    unfold resolveDepsStep
    rcases hg : getCB s r with _ | depCb <;> simp only [hg]
    · exact storeSync_refl s
    · rcases hlc : latestConstrained depCb c with e | ⟨_ | debCbv, depCb1⟩ <;> simp only [hlc]
      · exact storeSync_refl s
      · exact putCB_sync hg (latestConstrained_evolution hlc)
      · have hput : StoreSync s (putCB s r depCb1) :=
          putCB_sync hg (latestConstrained_evolution hlc)
        rcases hdc : resolveDepCheck cd r debCbv c with e | cd1 <;> simp only [hdc]
        · exact hput
        · rcases hch : child debCbv.dependencies cd1 (putCB s r depCb1) with ⟨e | cd2, s2⟩ <;>
            simp only [hch]
          · have h2 := hchild debCbv.dependencies cd1 (putCB s r depCb1)
            rw [hch] at h2
            exact storeSync_trans hput h2
          · have h2 := hchild debCbv.dependencies cd1 (putCB s r depCb1)
            rw [hch] at h2
            exact storeSync_trans (storeSync_trans hput h2) (ih cd2 s2)

theorem rd_evolution (fuel : Nat) :
    ∀ deps cd s, StoreSync s (resolveDependencies fuel deps cd s).2 := by
  induction fuel with
  | zero =>
    exact rds_evolution _ (fun deps cd s => storeSync_refl s)
  | succ f ih =>
    exact rds_evolution _ ih

theorem bcl_evolution (fuel : Nat) :
    ∀ refs cd s, StoreSync s (buildCookbookList fuel refs cd s).2 := by
  intro refs
  induction refs with
  | nil => intro cd s; exact storeSync_refl s
  | cons cbName rest ih =>
    intro cd s
    unfold buildCookbookList
    rcases hg : getCB s cbName with _ | cb <;> simp only [hg]
    · exact storeSync_refl s
    · rcases hlc : latestConstrained cb (((lookupCd cd cbName).getD []).headD "") with
        e | ⟨_ | cbv, c1⟩ <;> simp only [hlc]
      · exact storeSync_refl s
      · exact putCB_sync hg (latestConstrained_evolution hlc)
      · have hput : StoreSync s (putCB s cbName c1) :=
          putCB_sync hg (latestConstrained_evolution hlc)
        rcases hch : resolveDependencies fuel cbv.dependencies cd (putCB s cbName c1) with
          ⟨e | cd2, s2⟩ <;> simp only [hch]
        · have h2 := rd_evolution fuel cbv.dependencies cd (putCB s cbName c1)
          rw [hch] at h2
          exact storeSync_trans hput h2
        · have h2 := rd_evolution fuel cbv.dependencies cd (putCB s cbName c1)
          rw [hch] at h2
          exact storeSync_trans (storeSync_trans hput h2) (ih cd2 s2)

theorem sync_lookup_pair {s u : Store} {r : String} {depCb depCb1 : Cookbook}
    (hg : getCB s r = some depCb) (hlc : CbSync depCb depCb1)
    (hu : StoreSync (putCB s r depCb1) u) :
    ∃ cbu, getCB u r = some cbu ∧ CbSync depCb1 cbu ∧ putCB u r cbu = u := by
  have hg1 : getCB (putCB s r depCb1) r = some depCb1 :=
    getCB_putCB hg depCb1 (cbSync_name hlc)
  obtain ⟨cbu, hgu, hsync⟩ := getCB_sync_some hu r hg1
  exact ⟨cbu, hgu, hsync, putCB_self hgu⟩

theorem rds_stable
    (child : List (String × String) → CdList → Store → Except RErr CdList × Store)
    (hchildEv : ∀ deps cd s, StoreSync s (child deps cd s).2)
    (hchildSt : ∀ deps cd s res s1 u, child deps cd s = (res, s1) → StoreSync s1 u →
      child deps cd u = (res, u)) :
    ∀ deps cd s res s1 u, resolveDepsStep child deps cd s = (res, s1) → StoreSync s1 u →
      resolveDepsStep child deps cd u = (res, u) := by
  intro deps
  induction deps with
  | nil =>
    intro cd s res s1 u h hu
    cases h
    rfl
  | cons p rest ih =>
    obtain ⟨r, c⟩ := p
    intro cd s res s1 u h hu
    unfold resolveDepsStep at h ⊢
    rcases hg : getCB s r with _ | depCb <;> simp only [hg] at h
    · cases h
      simp only [getCB_sync_none hu r hg]
    · rcases hlc : latestConstrained depCb c with e | ⟨_ | debCbv, depCb1⟩ <;> simp only [hlc] at h
      · cases h
        obtain ⟨cbu, hgu, hsyncu⟩ := getCB_sync_some hu r hg
        simp only [hgu, latestConstrained_stable_err hlc hsyncu]
      · cases h
        obtain ⟨cbu, hgu, hsync1u, hps⟩ :=
          sync_lookup_pair hg (latestConstrained_evolution hlc) hu
        have hsu : StoreSync s u :=
          storeSync_trans (putCB_sync hg (latestConstrained_evolution hlc)) hu
        obtain ⟨cbu2, hgu2, _⟩ := getCB_sync_some hsu r hg
        rw [hgu] at hgu2
        cases hgu2
        simp only [hgu, latestConstrained_stable hlc hsync1u, hps]
      · rcases hdc : resolveDepCheck cd r debCbv c with e | cd1 <;> simp only [hdc] at h
        · cases h
          obtain ⟨cbu, hgu, hsync1u, hps⟩ :=
            sync_lookup_pair hg (latestConstrained_evolution hlc) hu
          simp only [hgu, latestConstrained_stable hlc hsync1u, hdc, hps]
        · rcases hch : child debCbv.dependencies cd1 (putCB s r depCb1) with ⟨e | cd2, s2⟩ <;>
            simp only [hch] at h
          · have hev2 : StoreSync (putCB s r depCb1) s2 := by
              have h2 := hchildEv debCbv.dependencies cd1 (putCB s r depCb1)
              rw [hch] at h2
              exact h2
            cases h
            have hs1u : StoreSync (putCB s r depCb1) u := storeSync_trans hev2 hu
            obtain ⟨cbu, hgu, hsync1u, hps⟩ :=
              sync_lookup_pair hg (latestConstrained_evolution hlc) hs1u
            simp only [hgu, latestConstrained_stable hlc hsync1u, hdc, hps,
              hchildSt debCbv.dependencies cd1 (putCB s r depCb1) _ _ u hch hu]
          · have hev2 : StoreSync (putCB s r depCb1) s2 := by
              have h2 := hchildEv debCbv.dependencies cd1 (putCB s r depCb1)
              rw [hch] at h2
              exact h2
            have hev3 : StoreSync s2 s1 := by
              have h3 := rds_evolution child hchildEv rest cd2 s2
              rw [h] at h3
              exact h3
            have hs2u : StoreSync s2 u := storeSync_trans hev3 hu
            have hs1u : StoreSync (putCB s r depCb1) u := storeSync_trans hev2 hs2u
            obtain ⟨cbu, hgu, hsync1u, hps⟩ :=
              sync_lookup_pair hg (latestConstrained_evolution hlc) hs1u
            simp only [hgu, latestConstrained_stable hlc hsync1u, hdc, hps,
              hchildSt debCbv.dependencies cd1 (putCB s r depCb1) _ _ u hch hs2u]
            exact ih cd2 s2 res s1 u h hu

theorem rd_stable (fuel : Nat) :
    ∀ deps cd s res s1 u, resolveDependencies fuel deps cd s = (res, s1) → StoreSync s1 u →
      resolveDependencies fuel deps cd u = (res, u) := by
  induction fuel with
  | zero =>
    refine rds_stable _ (fun deps cd s => storeSync_refl s) ?_
    intro deps cd s res s1 u h hu
    cases h
    rfl
  | succ f ih =>
    exact rds_stable _ (rd_evolution f) ih

theorem bcl_stable (fuel : Nat) :
    ∀ refs cd s res s1 u, buildCookbookList fuel refs cd s = (res, s1) → StoreSync s1 u →
      buildCookbookList fuel refs cd u = (res, u) := by
  intro refs
  induction refs with
  | nil =>
    intro cd s res s1 u h hu
    cases h
    rfl
  | cons cbName rest ih =>
    intro cd s res s1 u h hu
    unfold buildCookbookList at h ⊢
    rcases hg : getCB s cbName with _ | cb <;> simp only [hg] at h
    · cases h
      simp only [getCB_sync_none hu cbName hg]
    · rcases hlc : latestConstrained cb (((lookupCd cd cbName).getD []).headD "") with
        e | ⟨_ | cbv, c1⟩ <;> simp only [hlc] at h
      · cases h
        obtain ⟨cbu, hgu, hsyncu⟩ := getCB_sync_some hu cbName hg
        simp only [hgu, latestConstrained_stable_err hlc hsyncu]
      · cases h
        obtain ⟨cbu, hgu, hsync1u, hps⟩ :=
          sync_lookup_pair hg (latestConstrained_evolution hlc) hu
        have hsu : StoreSync s u :=
          storeSync_trans (putCB_sync hg (latestConstrained_evolution hlc)) hu
        obtain ⟨cbu2, hgu2, _⟩ := getCB_sync_some hsu cbName hg
        rw [hgu] at hgu2
        cases hgu2
        have hname : cbu.name = cb.name :=
          (cbSync_name hsync1u).trans (cbSync_name (latestConstrained_evolution hlc))
        simp only [hgu, latestConstrained_stable hlc hsync1u, hps, hname]
      · rcases hch : resolveDependencies fuel cbv.dependencies cd (putCB s cbName c1) with
          ⟨e | cd2, s2⟩ <;> simp only [hch] at h
        · have hev2 : StoreSync (putCB s cbName c1) s2 := by
            have h2 := rd_evolution fuel cbv.dependencies cd (putCB s cbName c1)
            rw [hch] at h2
            exact h2
          cases h
          have hs1u : StoreSync (putCB s cbName c1) u := storeSync_trans hev2 hu
          obtain ⟨cbu, hgu, hsync1u, hps⟩ :=
            sync_lookup_pair hg (latestConstrained_evolution hlc) hs1u
          simp only [hgu, latestConstrained_stable hlc hsync1u, hps,
            rd_stable fuel cbv.dependencies cd (putCB s cbName c1) _ _ u hch hu]
        · have hev2 : StoreSync (putCB s cbName c1) s2 := by
            have h2 := rd_evolution fuel cbv.dependencies cd (putCB s cbName c1)
            rw [hch] at h2
            exact h2
          have hev3 : StoreSync s2 s1 := by
            have h3 := bcl_evolution fuel rest cd2 s2
            rw [h] at h3
            exact h3
          have hs2u : StoreSync s2 u := storeSync_trans hev3 hu
          have hs1u : StoreSync (putCB s cbName c1) u := storeSync_trans hev2 hs2u
          obtain ⟨cbu, hgu, hsync1u, hps⟩ :=
            sync_lookup_pair hg (latestConstrained_evolution hlc) hs1u
          simp only [hgu, latestConstrained_stable hlc hsync1u, hps,
            rd_stable fuel cbv.dependencies cd (putCB s cbName c1) _ _ u hch hs2u]
          exact ih cd2 s2 res s1 u h hu

theorem lookupVer_mem {l : List (String × CookbookVersion)} {key : String} {v : CookbookVersion}
    (h : lookupVer l key = some v) : ∃ k, (k, v) ∈ l := by
  induction l with
  | nil => cases h
  | cons p rest ih =>
    obtain ⟨k0, v0⟩ := p
    unfold lookupVer at h
    by_cases hk : (k0 == key) = true
    · rw [if_pos hk] at h
      cases h
      exact ⟨k0, List.mem_cons_self _ _⟩
    · rw [if_neg hk] at h
      obtain ⟨k, hm⟩ := ih h
      exact ⟨k, List.mem_cons_of_mem _ hm⟩

theorem sortedVersions_mem {c : Cookbook} {v : CookbookVersion} (h : v ∈ sortedVersions c) :
    ∃ k, (k, v) ∈ c.versions := by
  unfold sortedVersions at h
  rw [List.mem_filterMap] at h
  obtain ⟨key, _, hl⟩ := h
  exact lookupVer_mem hl

theorem findOk_mem {ver op : String} {l : List CookbookVersion} {v : CookbookVersion}
    (h : findOk ver op l = some v) : v ∈ l := by
  induction l with
  | nil => cases h
  | cons cv rest ih =>
    unfold findOk at h
    by_cases hc : (verConstraintCheck cv.version ver op == "ok") = true
    · rw [if_pos hc] at h
      cases h
      exact List.mem_cons_self _ _
    · rw [if_neg hc] at h
      exact List.mem_cons_of_mem _ (ih h)

/-- A version chosen by `LatestConstrained` comes from the version map or
from the latest cache. -/
theorem latestConstrained_src {c : Cookbook} {cs : String} {v : CookbookVersion} {c1 : Cookbook}
    (h : latestConstrained c cs = .ok (some v, c1)) :
    v ∈ sortedVersions c ∨ c.latest = some v := by
  unfold latestConstrained at h
  by_cases hcs : (cs == "") = true
  · rw [if_pos hcs] at h
    rcases hv : latestVersion c with e | ⟨w, c2⟩
    · rw [hv] at h
      cases h
    · rw [hv] at h
      cases h
      unfold latestVersion at hv
      rcases hl : c.latest with _ | l
      · rw [hl] at hv
        rcases hss : sortedVersions c with _ | ⟨x, xs⟩
        · rw [hss] at hv
          cases hv
        · rw [hss] at hv
          cases hv
          left
          exact List.mem_cons_self _ _
      · rw [hl] at hv
        cases hv
        right
        rfl
  · rw [if_neg hcs] at h
    split at h
    · rw [Except.ok.injEq, Prod.mk.injEq] at h
      obtain ⟨h1, _⟩ := h
      left
      exact findOk_mem h1
    · rw [Except.ok.injEq, Prod.mk.injEq] at h
      obtain ⟨h1, _⟩ := h
      cases h1

theorem rankedCB_sync {rank : String → Nat} {c c' : Cookbook} (h : CbSync c c')
    (hr : RankedCB rank c) : RankedCB rank c' := by
  rcases cbSync_cases h with rfl | ⟨h1, v, h2, rfl⟩
  · exact hr
  · obtain ⟨hv, _⟩ := hr
    constructor
    · intro p hp q hq
      exact hv p hp q hq
    · intro q hq
      have hvmem : v ∈ sortedVersions c := by
        rcases hss : sortedVersions c with _ | ⟨x, xs⟩
        · rw [hss] at h2
          cases h2
        · rw [hss] at h2
          cases h2
          exact List.mem_cons_self _ _
      obtain ⟨k, hk⟩ := sortedVersions_mem hvmem
      exact hv (k, v) hk q hq

theorem storeRanked_sync {rank : String → Nat} {s t : Store} (h : StoreSync s t)
    (hr : StoreRanked rank s) : StoreRanked rank t := by
  induction h with
  | nil => exact hr
  | cons hab hrest ih =>
    intro cb hcb
    rcases List.mem_cons.mp hcb with rfl | hcb2
    · exact rankedCB_sync hab (hr _ (List.mem_cons_self _ _))
    · exact ih (fun x hx => hr x (List.mem_cons_of_mem _ hx)) cb hcb2

theorem latestVersion_not_noFuel {c : Cookbook} : latestVersion c ≠ .error .noFuel := by
  unfold latestVersion
  rcases hl : c.latest with _ | l
  · rcases hs : sortedVersions c with _ | ⟨v, vs⟩ <;> simp
  · simp

theorem latestConstrained_not_noFuel {c : Cookbook} {cs : String} :
    latestConstrained c cs ≠ .error .noFuel := by
  unfold latestConstrained
  by_cases hcs : (cs == "") = true
  · rw [if_pos hcs]
    rcases hv : latestVersion c with e | ⟨w, c2⟩
    · intro h
      cases h
      exact latestVersion_not_noFuel hv
    · simp
  · rw [if_neg hcs]
    split <;> simp

theorem checkConstraints_not_noFuel {v : String} {l : List String} :
    checkConstraints v l ≠ .error .noFuel := by
  induction l with
  | nil => simp [checkConstraints]
  | cons d rest ih =>
    unfold checkConstraints
    by_cases hd : (d == "") = true
    · rw [if_pos hd]
      exact ih
    · rw [if_neg hd]
      rcases hs : splitConstraint d with e | ⟨op, ver⟩
      · unfold splitConstraint at hs
        split at hs
        · cases hs
        · cases hs
          simp
      · by_cases hck : (verConstraintCheck v ver op != "ok") = true
        · simp [hck]
        · simp only [hck, if_false, Bool.false_eq_true, if_neg]
          exact ih

theorem resolveDepCheck_not_noFuel {cd : CdList} {r : String} {debCbv : CookbookVersion}
    {c : String} : resolveDepCheck cd r debCbv c ≠ .error .noFuel := by
  unfold resolveDepCheck
  rcases lookupCd cd r with _ | constraints
  · simp
  · rcases hc : checkConstraints debCbv.version constraints with e | u
    · simp only [hc]
      intro h
      cases h
      exact checkConstraints_not_noFuel hc
    · simp [hc]

/-- A successful `UpdateLatestVersion` leaves the cache at the head of
the descending-sorted version sequence. -/
theorem updateLatestVersion_ok (c0 c1 : Cookbook) (h : updateLatestVersion c0 = .ok c1) :
    c1.latest = (sortedVersions c1).head? := by
  unfold updateLatestVersion latestVersion at h
  rcases hs : sortedVersions { c0 with latest := none } with _ | ⟨v, vs⟩
  · rw [hs] at h
    exact absurd h (by simp)
  · rw [hs] at h
    cases h
    have h2 : sortedVersions { c0 with latest := some v } = v :: vs := hs
    simp [h2]

/-! ## Claim theorems -/

/-- C1.  The claim says the final pass of `DependsCookbooks` selects, for
every package in the constraint table, the newest version satisfying every
accumulated constraint, aborting with a no-satisfying-version error
otherwise.  The code does not: its `continue Vers` targets the inner
constraint loop (the loop it is already in), so every constraint-check
outcome is discarded and the newest version overall is chosen.  At the
failing input - run list ["foo@1.0.0"] against a store whose cookbook
"pinned" has versions 1.0.0 and 2.0.0 - the resolution returns version
2.0.0 even though the accumulated pin "= 1.0.0" judges 2.0.0 "skip",
contradicting the source's own comments on the intended control flow. -/
theorem c1_final_pass_ignores_constraints :
    dependsCookbooks 10 ["pinned@1.0.0"] [] [fooC1] = (.ok [("pinned", v200C1)], [fooC1]) ∧
    finalPass [fooC1] [("pinned", ["= 1.0.0"])] = .ok [("pinned", v200C1)] ∧
    v200C1.version = "2.0.0" ∧
    verConstraintCheck v200C1.version "1.0.0" "=" = "skip" :=
  ⟨rfl, rfl, rfl, rfl⟩

/-- C2 counterexample.  The claim says `LatestConstrained` on foo with
versions {1.0.0, 1.2.0, 2.0.0} under "~> 1.0.0" returns 1.2.0; the code
returns 1.0.0 (the pessimistic upper bound of the three-part bound 1.0.0
is 1.1, which 1.2.0 exceeds). -/
theorem c2_pessimistic_counterexample :
    latestConstrained fooC2 "~> 1.0.0" = .ok (some v100C2, fooC2) ∧
    v100C2.version = "1.0.0" :=
  ⟨rfl, rfl⟩

/-- C2 amended.  Consistent with the pessimistic semantics the claim
itself states (at least the bound and strictly below the increment of the
second-least-significant present component, here [1.0.0, 1.1)),
`SelectLatestSatisfying` returns 1.0.0: 1.2.0 and 2.0.0 are judged
"skip" and 1.0.0 "ok". -/
theorem c2_pessimistic_amended :
    verConstraintCheck "1.0.0" "1.0.0" "~>" = "ok" ∧
    verConstraintCheck "1.2.0" "1.0.0" "~>" = "skip" ∧
    verConstraintCheck "2.0.0" "1.0.0" "~>" = "skip" ∧
    latestConstrained fooC2 "~> 1.0.0" = .ok (some v100C2, fooC2) ∧
    v100C2.version = "1.0.0" :=
  ⟨rfl, rfl, rfl, rfl, rfl⟩

/-- C3 counterexample.  The claim says two version texts denoting the same
numeric triple, such as "1.2" and "1.2.0", compare equal (neither less);
in the code a missing third component compares strictly smaller, so
"1.2" is less than "1.2.0". -/
theorem c3_missing_patch_counterexample :
    versionLess "1.2" "1.2.0" = true :=
  rfl

/-- C3 amended.  `versionLess` is numeric (never string-lexicographic) on
the components it compares - "10.0.0" is greater than "9.0.0", "1.10.0"
greater than "1.9.0" - but a two-component version does not have its
patch defaulted to 0: it compares strictly below the same version with an
explicit third component, so "1.2" is less than "1.2.0" and not equal to
it. -/
theorem c3_numeric_order_amended :
    versionLess "9.0.0" "10.0.0" = true ∧
    versionLess "10.0.0" "9.0.0" = false ∧
    versionLess "1.9.0" "1.10.0" = true ∧
    versionLess "1.10.0" "1.9.0" = false ∧
    versionLess "2.0.0" "10.0.0" = true ∧
    versionLess "1.2" "1.2.0" = true ∧
    versionLess "1.2.0" "1.2" = false :=
  ⟨rfl, rfl, rfl, rfl, rfl, rfl, rfl⟩

/-- C6 counterexample.  Reached by two `NewVersion` uploads followed by a
`DeleteVersion` of the newer version: deletion removes 2.0.0 from the
version map but leaves the latest cache pointing at it, so
`LatestVersion` returns the deleted version 2.0.0 although the maximum of
the remaining version set is 1.0.0. -/
theorem c6_stale_latest_counterexample :
    newVersion cbC6start "1.0.0" dC6 = .ok (v100C6, cbC6one) ∧
    newVersion cbC6one "2.0.0" dC6 = .ok (v200C6, cbC6two) ∧
    deleteVersion cbC6two "2.0.0" = .ok cbC6del ∧
    lookupVer cbC6del.versions "2.0.0" = none ∧
    latestVersion cbC6del = .ok (v200C6, cbC6del) ∧
    v200C6.version = "2.0.0" ∧
    sortDesc (cbC6del.versions.map Prod.fst) = ["1.0.0"] :=
  ⟨rfl, rfl, rfl, rfl, rfl, rfl, rfl⟩

/-- C4.  The outcome table of `verConstraintCheck`, with "equal" the
comparison the code uses (string equality of the version texts) and
"less" the `versionLess` order, "greater" meaning neither equal nor less
and the weak comparisons derived accordingly: "=" is ok on equal, break
below the bound, skip otherwise; ">" is ok strictly above the bound and
break otherwise; "<" is ok strictly below and skip otherwise; ">=" is ok
at or above and break otherwise; "<=" is ok at or below and skip
otherwise; any operator outside the six known ones is invalid. -/
theorem c4_constraint_outcome_table (a b : String) :
    (verConstraintCheck a b "=" =
      if a == b then "ok" else if versionLess a b then "break" else "skip") ∧
    (verConstraintCheck a b ">" =
      if !(a == b) && !versionLess a b then "ok" else "break") ∧
    (verConstraintCheck a b "<" =
      if versionLess a b then "ok" else "skip") ∧
    (verConstraintCheck a b ">=" =
      if !versionLess a b then "ok" else "break") ∧
    (verConstraintCheck a b "<=" =
      if a == b || versionLess a b then "ok" else "skip") ∧
    (∀ op, op ∉ (["=", ">", "<", ">=", "<=", "~>"] : List String) →
      verConstraintCheck a b op = "invalid") := by
  have hvb : (a == b) = true → versionLess a b = false := by
    intro h
    simp [versionLess, h]
  refine ⟨rfl, ?_, ?_, rfl, rfl, ?_⟩
  · cases hab : (a == b) <;> cases hlt : versionLess a b <;>
      simp [verConstraintCheck, hab, hlt]
  · cases hab : (a == b) <;> cases hlt : versionLess a b <;>
      simp [verConstraintCheck, hab, hlt]
    have := hvb hab
    rw [this] at hlt
    cases hlt
  · intro op h
    simp only [List.mem_cons, List.not_mem_nil, or_false, not_or] at h
    obtain ⟨h1, h2, h3, h4, h5, h6⟩ := h
    simp only [verConstraintCheck, beq_iff_eq]
    rw [if_neg h1, if_neg h2, if_neg h3, if_neg h4, if_neg h5, if_neg h6]

/-- C4 witness: the table instantiated at 1.2.0 against bound 1.0.0 and
the unknown operator "><". -/
theorem c4_constraint_outcome_table_witness :
    verConstraintCheck "1.2.0" "1.0.0" "><" = "invalid" :=
  (c4_constraint_outcome_table "1.2.0" "1.0.0").2.2.2.2.2 "><" (by decide)

/-- C5.  The environment-constraint merge behaves as claimed: an empty
request takes the environment constraint; equal version parts take the
environment constraint; an environment ">" or ">=" replaces the request
exactly when the request's bound is `versionLess` than the environment's
and keeps the request otherwise; "<" and "<=" symmetrically; "=" with
differing versions is a conflict error; "~>" is adopted when the
request's bound satisfies it and is a conflict error otherwise. -/
theorem c5_env_merge (cur : List String) (k ec newop newver : String) :
    (cur.headD "" = "" → envMergeStep cur k ec = .ok [ec]) ∧
    (cur.headD "" ≠ "" → splitConstraint ec = .ok (newop, newver) →
      splitConstraintVer (cur.headD "") = newver →
      envMergeStep cur k ec = .ok [ec]) ∧
    ((newop = ">" ∨ newop = ">=") → cur.headD "" ≠ "" →
      splitConstraint ec = .ok (newop, newver) →
      splitConstraintVer (cur.headD "") ≠ newver →
      envMergeStep cur k ec =
        if versionLess (splitConstraintVer (cur.headD "")) newver then .ok [ec] else .ok cur) ∧
    ((newop = "<" ∨ newop = "<=") → cur.headD "" ≠ "" →
      splitConstraint ec = .ok (newop, newver) →
      splitConstraintVer (cur.headD "") ≠ newver →
      envMergeStep cur k ec =
        if !versionLess (splitConstraintVer (cur.headD "")) newver then .ok [ec] else .ok cur) ∧
    (newop = "=" → cur.headD "" ≠ "" →
      splitConstraint ec = .ok (newop, newver) →
      splitConstraintVer (cur.headD "") ≠ newver →
      envMergeStep cur k ec = .error (.msg (envConflictMsg (cur.headD "") k ec))) ∧
    (newop = "~>" → cur.headD "" ≠ "" →
      splitConstraint ec = .ok (newop, newver) →
      splitConstraintVer (cur.headD "") ≠ newver →
      envMergeStep cur k ec =
        if verConstraintCheck (splitConstraintVer (cur.headD "")) newver "~>" == "ok"
        then .ok [ec]
        else .error (.msg (envConflictMsg (cur.headD "") k ec))) := by
  refine ⟨?_, ?_, ?_, ?_, ?_, ?_⟩
  · intro h
    unfold envMergeStep
    rw [if_pos (by simp [← List.headD_eq_head?_getD, h])]
  · intro h1 h2 h3
    unfold envMergeStep
    rw [if_neg (by simp [← List.headD_eq_head?_getD, h1]), h2]
    dsimp only
    rw [if_pos (by simp [← List.headD_eq_head?_getD, h3])]
  · rintro (rfl | rfl) h1 h2 h3 <;>
      (unfold envMergeStep
       rw [if_neg (by simp [← List.headD_eq_head?_getD, h1]), h2]
       dsimp only
       rw [if_neg (by simp [← List.headD_eq_head?_getD, h3]), if_pos (by decide)])
  · rintro (rfl | rfl) h1 h2 h3 <;>
      (unfold envMergeStep
       rw [if_neg (by simp [← List.headD_eq_head?_getD, h1]), h2]
       dsimp only
       rw [if_neg (by simp [← List.headD_eq_head?_getD, h3]), if_neg (by decide), if_pos (by decide)])
  · rintro rfl h1 h2 h3
    unfold envMergeStep
    rw [if_neg (by simp [← List.headD_eq_head?_getD, h1]), h2]
    dsimp only
    rw [if_neg (by simp [← List.headD_eq_head?_getD, h3]), if_neg (by decide), if_neg (by decide), if_pos (by decide),
      if_pos (by simp [← List.headD_eq_head?_getD, h3])]
  · rintro rfl h1 h2 h3
    unfold envMergeStep
    rw [if_neg (by simp [← List.headD_eq_head?_getD, h1]), h2]
    dsimp only
    rw [if_neg (by simp [← List.headD_eq_head?_getD, h3]), if_neg (by decide), if_neg (by decide), if_neg (by decide),
      if_pos (by decide)]

/-- C5 witness: an environment ">= 2.0.0" tightens a requested
">= 1.0.0". -/
theorem c5_env_merge_witness :
    envMergeStep [">= 1.0.0"] "wk" ">= 2.0.0" = .ok [">= 2.0.0"] := by
  have h := (c5_env_merge [">= 1.0.0"] "wk" ">= 2.0.0" ">=" "2.0.0").2.2.1
    (Or.inr rfl) (by decide) (by decide) (by decide)
  rw [h]
  rfl

/-- C6 amended.  `NewVersion` does invalidate and recompute the cached
latest pointer (afterwards it equals the head of the descending-sorted
version sequence), but `DeleteVersion` does not touch the cache at all,
so after deleting the cached version `LatestVersion` keeps returning the
deleted version. -/
theorem c6_latest_cache_amended (c : Cookbook) (ver : String) (d : UpdateData)
    (cbv : CookbookVersion) (c1 c2 : Cookbook) :
    (newVersion c ver d = .ok (cbv, c1) → c1.latest = (sortedVersions c1).head?) ∧
    (ver ≠ "_latest" → deleteVersion c ver = .ok c2 → c2.latest = c.latest) := by
  constructor
  · intro h
    unfold newVersion at h
    split at h
    · exact absurd h (by simp)
    · exact absurd h (by simp)
    · split at h
      · exact absurd h (by simp)
      · split at h
        · exact absurd h (by simp)
        · rename_i c2' heq
          cases h
          exact updateLatestVersion_ok _ _ heq
  · intro hne h
    unfold deleteVersion getVersion at h
    rw [if_neg (by simp [hne])] at h
    rcases hl : lookupVer c.versions ver with _ | cbv0
    · rw [hl] at h
      exact absurd h (by simp)
    · rw [hl] at h
      cases h
      rfl

/-- C6 witness: the amended theorem applied to the concrete upload /
delete chain: after the second upload the cache is the descending head
(2.0.0); after deleting 2.0.0 the cache is untouched. -/
theorem c6_latest_cache_amended_witness :
    cbC6two.latest = (sortedVersions cbC6two).head? ∧ cbC6del.latest = cbC6two.latest :=
  ⟨(c6_latest_cache_amended cbC6one "2.0.0" dC6 v200C6 cbC6two cbC6del).1 rfl,
   (c6_latest_cache_amended cbC6two "2.0.0" dC6 v200C6 cbC6two cbC6del).2 (by decide) rfl⟩

/-- C7 counterexample.  The claim says an empty-constraint selection on a
package with no versions returns None rather than failing or panicking;
the code indexes `sorted[0]` of an empty slice inside `LatestVersion`,
a runtime panic. -/
theorem c7_empty_cookbook_panics :
    latestConstrained emptyC7 "" = .error .goPanic :=
  rfl

/-- C7 amended.  With an empty latest cache, selecting with the empty
constraint returns the first element of the descending-sorted version
sequence (also filling the cache with it); but on a package with no
versions at all the code panics (out-of-range index in `LatestVersion`)
instead of returning None. -/
theorem c7_empty_constraint_amended (c : Cookbook) (v : CookbookVersion) (vs : List CookbookVersion) :
    (c.latest = none → sortedVersions c = v :: vs →
      latestConstrained c "" = .ok (some v, { c with latest := some v })) ∧
    (c.latest = none → sortedVersions c = [] →
      latestConstrained c "" = .error .goPanic) := by
  constructor <;> intro h1 h2 <;> simp [latestConstrained, latestVersion, h1, h2]

/-- C7 witness: the amended theorem applied to the three-version cookbook
`fooC2`, whose descending order starts at 2.0.0. -/
theorem c7_empty_constraint_amended_witness :
    latestConstrained fooC2 "" = .ok (some v200C2, { fooC2 with latest := some v200C2 }) :=
  (c7_empty_constraint_amended fooC2 v200C2 [v120C2, v100C2]).1 rfl rfl

/-- C8 counterexample.  The claim says two invocations of
`DependsCookbooks` against the same run list, environment table and
unchanged metadata return identical results.  The result, however, also
depends on the order in which Go's randomized `range` happens to present
the map entries, which is not part of those inputs.  Both conjunct pairs
below present the same map in the two orders `range` may produce
(witnessed by the `Perm` conjuncts) and get different results: two
conflicting environment entries surface different conflict errors
(cookbook.go:295), and two distinct, numerically tied version keys -
"1.2.0" and "1.02.0", both valid versions - make the unstable descending
sort (cookbook.go:232) choose a different version. -/
theorem c8_map_order_counterexample :
    dependsCookbooks 10 ["foo@1.0.0", "bar@1.0.0"]
        [("foo", "= 2.0.0"), ("bar", "= 2.0.0")] [] ≠
      dependsCookbooks 10 ["foo@1.0.0", "bar@1.0.0"]
        [("bar", "= 2.0.0"), ("foo", "= 2.0.0")] [] ∧
    ([("foo", "= 2.0.0"), ("bar", "= 2.0.0")] : List (String × String)).Perm
      [("bar", "= 2.0.0"), ("foo", "= 2.0.0")] ∧
    dependsCookbooks 10 ["tie"] [] storeTie1 ≠ dependsCookbooks 10 ["tie"] [] storeTie2 ∧
    ([("1.2.0", vTieA), ("1.02.0", vTieB)]).Perm [("1.02.0", vTieB), ("1.2.0", vTieA)] := by
  refine ⟨by decide, by decide, by decide, by decide⟩

/-- C8 amended.  Resolution is read-only over the shared package/version
metadata, and deterministic only relative to a fixed map-iteration order:
`DependsCookbooks` returns a store whose metadata (cookbook names,
version maps and version contents) is unchanged - the only shared state
it may write is the latest-version cache - and re-running it on the store
it returned, with the run list, environment entries and dependency maps
presented in the same order, yields the identical result and the
identical store.  Across iteration orders the result can differ (see the
counterexample above). -/
theorem c8_resolution_deterministic_readonly (fuel : Nat) (runList : List String)
    (env : List (String × String)) (s : Store) :
    storeMeta (dependsCookbooks fuel runList env s).2 = storeMeta s ∧
    dependsCookbooks fuel runList env ((dependsCookbooks fuel runList env s).2) =
      dependsCookbooks fuel runList env s := by
  unfold dependsCookbooks
  rcases hi : initCdList runList with ⟨cd0, refs⟩
  simp only [hi]
  rcases ha : applyEnvConstraints env cd0 with e | cd1 <;> simp only [ha]
  · exact ⟨by trivial, by trivial⟩
  · rcases hb : buildCookbookList fuel refs cd1 s with ⟨res, s1⟩
    have hev : StoreSync s s1 := by
      have h2 := bcl_evolution fuel refs cd1 s
      rw [hb] at h2
      exact h2
    have hmeta : storeMeta s1 = storeMeta s := storeSync_meta hev
    rcases res with e | cd2
    · refine ⟨hmeta, ?_⟩
      simp only [bcl_stable fuel refs cd1 s _ _ s1 hb (storeSync_refl s1)]
    · rcases hf : finalPass s1 cd2 with e | deps <;> simp only [hf]
      · refine ⟨hmeta, ?_⟩
        simp only [bcl_stable fuel refs cd1 s _ _ s1 hb (storeSync_refl s1), hf]
      · refine ⟨hmeta, ?_⟩
        simp only [bcl_stable fuel refs cd1 s _ _ s1 hb (storeSync_refl s1), hf]

/-- C9.  The frozen flag is monotone under `UpdateVersion`: whenever the
update succeeds on an already-frozen version - which requires force to be
"true" - the resulting version is still frozen, because the source only
assigns the payload's frozen flag when the version is not frozen yet. -/
theorem c9_frozen_monotone (cbv : CookbookVersion) (d : UpdateData) (force : String)
    (r : CookbookVersion) (hf : cbv.isFrozen = true)
    (h : updateVersion cbv d force = .ok r) : r.isFrozen = true := by
  unfold updateVersion at h
  split at h
  · exact absurd h (by simp)
  · split at h
    · exact absurd h (by simp)
    · cases h
      simp [hf]

/-- C9 witness: a frozen version updated with force "true" and a payload
requesting frozen = false stays frozen. -/
theorem c9_frozen_monotone_witness : cbvC9.isFrozen = true :=
  c9_frozen_monotone cbvC9 dC9 "true" cbvC9 rfl rfl

/-- C10.  `resolveDependencies` recurses into each chosen dependency
version unconditionally, so termination rests on the dependency graph
being acyclic.  With acyclicity witnessed by a rank function that every
dependency edge in the store strictly decreases, any fuel exceeding the
rank of every entry dependency suffices: the recursion never exhausts its
depth bound (never returns `noFuel`). -/
theorem c10_acyclic_terminates (rank : String → Nat) (fuel : Nat)
    (deps : List (String × String)) (cd : CdList) (s : Store)
    (hs : StoreRanked rank s) (hd : ∀ p ∈ deps, rank p.1 < fuel) :
    (resolveDependencies fuel deps cd s).1 ≠ .error .noFuel := by
  revert hs hd
  revert deps cd s
  induction fuel using Nat.strong_induction_on with
  | _ fuel ihf =>
    intro deps
    induction deps with
    | nil =>
      intro cd s hs hd
      cases fuel <;> simp [resolveDependencies, resolveDepsStep]
    | cons p rest ihd =>
      obtain ⟨r, c⟩ := p
      intro cd s hs hd
      have hr : rank r < fuel := hd (r, c) (List.mem_cons_self _ _)
      rcases fuel with _ | f
      · omega
      · show (resolveDepsStep (resolveDependencies f) ((r, c) :: rest) cd s).1 ≠ .error .noFuel
        unfold resolveDepsStep
        rcases hg : getCB s r with _ | depCb <;> simp only [hg]
        · simp
        · rcases hlc : latestConstrained depCb c with e | ⟨_ | debCbv, depCb1⟩ <;> simp only [hlc]
          · intro hcon
            cases hcon
            exact latestConstrained_not_noFuel hlc
          · simp
          · rcases hdc : resolveDepCheck cd r debCbv c with e | cd1 <;> simp only [hdc]
            · intro hcon
              cases hcon
              exact resolveDepCheck_not_noFuel hdc
            · have hput : StoreSync s (putCB s r depCb1) :=
                putCB_sync hg (latestConstrained_evolution hlc)
              have hs1 : StoreRanked rank (putCB s r depCb1) := storeRanked_sync hput hs
              have hname : depCb.name = r := getCB_name hg
              have hrcb : RankedCB rank depCb := hs depCb (getCB_mem hg)
              have hdeps : ∀ q ∈ debCbv.dependencies, rank q.1 < rank r := by
                intro q hq
                rcases latestConstrained_src hlc with hmemv | hlatest
                · obtain ⟨k, hk⟩ := sortedVersions_mem hmemv
                  have h5 := hrcb.1 (k, debCbv) hk q hq
                  rw [hname] at h5
                  exact h5
                · have h5 := hrcb.2
                  rw [hlatest] at h5
                  have h6 := h5 q hq
                  rw [hname] at h6
                  exact h6
              have hchildDeps : ∀ q ∈ debCbv.dependencies, rank q.1 < f := by
                intro q hq
                have h1 := hdeps q hq
                omega
              rcases hch : resolveDependencies f debCbv.dependencies cd1 (putCB s r depCb1) with
                ⟨e | cd2, s2⟩ <;> simp only [hch]
              · intro hcon
                cases hcon
                have h7 := ihf f (by omega) debCbv.dependencies cd1 (putCB s r depCb1) hs1 hchildDeps
                exact h7 (by rw [hch])
              · have hev : StoreSync (putCB s r depCb1) s2 := by
                  have h2 := rd_evolution f debCbv.dependencies cd1 (putCB s r depCb1)
                  rw [hch] at h2
                  exact h2
                have hs2r : StoreRanked rank s2 := storeRanked_sync hev hs1
                have h8 := ihd cd2 s2 hs2r (fun q hq => hd q (List.mem_cons_of_mem _ hq))
                exact h8

/-- C10 witness: the acyclic app / lib / util store with the depth rank,
resolving the entry version's dependencies at fuel 3. -/
theorem c10_acyclic_terminates_witness :
    (resolveDependencies 3 appCbv.dependencies [] storeC10).1 ≠ .error .noFuel :=
  c10_acyclic_terminates rankC10 3 appCbv.dependencies [] storeC10
    (by unfold StoreRanked RankedCB; decide) (by decide)

end Goiardi
